import Mathlib

/-!
Shallow embedding of `taskflow/engines/action_engine/graph_action.py`
(`FutureGraphAction`), the futures-based graph execution driver.

The driver's external collaborators (the graph analyzer, the state storage,
the task action and retry action proxies) are modelled as an explicit
environment record `Env`; the storage-visible mutable data is a `World`.
Python's unbounded `while` loop and the recursive failure escalation are
given explicit fuel.  The asynchronous mutation of the flow state by other
actors is modelled by an environment "interference" function applied at
each generator `yield` (the only points at which the single-threaded driver
gives up control before reading the flow state again).
-/

namespace TF

/-- The `taskflow.states` constants used by `graph_action.py`: atom/flow
lifecycle states, the progress markers yielded by `execute_iter`, and the
intention values (`st.EXECUTE`/`st.REVERT`/`st.RETRY` live in the same
module in the source). -/
inductive St
  | PENDING
  | RUNNING
  | REVERTING
  | RETRYING
  | SUCCESS
  | FAILURE
  | RESUMING
  | SCHEDULING
  | WAITING
  | ANALYZING
  | SUSPENDED
  | REVERTED
  | EXECUTE
  | REVERT
  | RETRY
deriving DecidableEq, Repr

/-- Node kinds: `isinstance(node, task.BaseTask)`, `isinstance(node, r.Retry)`,
or anything else (the `TypeError` branches). -/
inductive NodeKind
  | taskKind
  | retryKind
  | otherKind
deriving DecidableEq, Repr

/-- A graph node (atom): identity is its name; the kind drives the
`isinstance` dispatch in `_schedule_node` and `_reset_nodes`. -/
structure Node where
  name : String
  kind : NodeKind
deriving DecidableEq, Repr

/-- A future returned by a proxy schedule call.  The driver creates one per
scheduled node; `fid` is a freshness counter so futures of the same node
scheduled at different times are distinct values. -/
structure Future where
  node : Node
  fid : Nat
deriving DecidableEq, Repr

/-- The `taskflow.engines.action_engine.executor` event constants
(`ex.EXECUTED` / `ex.REVERTED`). -/
inductive Event
  | EXECUTED
  | REVERTED
deriving DecidableEq, Repr

/-- A future's payload value: a normal result or a captured `misc.Failure`
(identified by a tag so distinct failures can be told apart). -/
inductive VResult
  | value (v : Nat)
  | failure (tag : Nat)
deriving DecidableEq, Repr

/-- `isinstance(result, misc.Failure)`. -/
def VResult.isFailure : VResult → Bool
  | .failure _ => true
  | _ => false

/-- The fresh `misc.Failure()` captured by an `except Exception:` handler. -/
def capturedFailure : VResult := .failure 0

/-- The decisions a retry controller's `on_failure` may return
(`taskflow.retry.RETRY` / `REVERT` / `REVERT_ALL`). -/
inductive RetryDecision
  | RETRY
  | REVERT
  | REVERT_ALL
deriving DecidableEq, Repr

/-- The storage-visible mutable state: per-atom intention (`get_atom_intention`
/ `set_atom_intention`), per-atom lifecycle state (written through the proxies'
`change_state` and read by the analyzer's `get_state`), per-atom saved result
(`storage.get`), per-task progress, and the flow state (`get_flow_state`).
The driver never writes the flow state; other actors change it asynchronously
(see `Env.interfere`). -/
structure World where
  intentions : String → St
  states : String → St
  results : String → VResult
  progress : String → Nat
  flow : St

/-- The external collaborators of the driver, as a deterministic oracle.
Calls whose answers may vary over time take the driver's call clock. -/
structure Env where
  /-- `analyzer.iterate_all_nodes()`. -/
  allNodes : List Node
  /-- `analyzer.find_atom_retry(atom)`: the guarding retry controller. -/
  findAtomRetry : Node → Option Node
  /-- `analyzer.iterate_subgraph(retry)` (the guarded subgraph). -/
  subgraph : Node → List Node
  /-- `retry_action.on_failure(retry, atom, failure)`. -/
  onFailure : Node → Node → VResult → RetryDecision
  /-- Asynchronous flow-state interference by other actors, applied at each
  generator yield: given the clock and the current flow state, the flow
  state observed afterwards. -/
  interfere : Nat → St → St
  /-- `task_action.wait_for_any(not_done, timeout)`: the futures chosen as
  resolved at this clock (intersected with the actual not-done set). -/
  waitDone : Nat → Nat → List Future → List Future
  /-- `analyzer.get_next_nodes(atom?)`; `.error` models a raised exception. -/
  nextNodes : Nat → Option Node → Except Unit (List Node)
  /-- Whether the proxy schedule call at this clock raises. -/
  schedFail : Nat → Bool
  /-- `future.result()`: the `(node, event, result)` triple, or `.error` when
  resolving raises. -/
  resolve : Future → Except Unit (Node × Event × VResult)
  /-- `analyzer.is_success()`. -/
  isSuccess : Bool

/-- Driver-threaded system state: the world plus the env call clock and the
future freshness counter. -/
structure Sys where
  w : World
  clock : Nat
  fctr : Nat

/-- Consume one clock tick. -/
def tick (s : Sys) : Nat × Sys :=
  (s.clock, { s with clock := s.clock + 1 })

/-- `storage.set_atom_intention(name, intention)`. -/
def setIntention (w : World) (name : String) (i : St) : World :=
  { w with intentions := Function.update w.intentions name i }

/-- `self.is_running()`: `storage.get_flow_state() == st.RUNNING`. -/
def isRunning (w : World) : Bool := w.flow == St.RUNNING

/-- A generator `yield`: other actors may change the flow state while the
driver is suspended. -/
def yieldInterfere (env : Env) (s : Sys) : Sys :=
  let (k, s') := tick s
  { s' with w := { s'.w with flow := env.interfere k s'.w.flow } }

/-- `task_action.change_state(node, state, progress=0.0)` (state write plus
progress reset).  Modelled from the spec: the Task Proxy's `setState`
persists the state (and progress) for the task; the proxy itself is outside
this repository's core. -/
def changeStateTask (w : World) (n : Node) (st : St) : World :=
  { w with
    states := Function.update w.states n.name st,
    progress := Function.update w.progress n.name 0 }

/-- `retry_action.change_state(node, state)`.  Modelled from the spec: the
Retry Proxy's `setState` persists the state for the controller. -/
def changeStateRetry (w : World) (n : Node) (st : St) : World :=
  { w with states := Function.update w.states n.name st }

/-- `task_action.complete_execution` / `complete_reversion`: persist the
outcome.  Modelled from the spec: the Task Proxy's completion operations
persist the result for the task; both persist the outcome, distinguished
only by which stored transition they record. -/
def completeTask (w : World) (n : Node) (_event : Event) (result : VResult) :
    World :=
  { w with results := Function.update w.results n.name result }

/-- `self._revert_all()`: set every atom's intention in the whole graph to
`REVERT`. -/
def revertAll (env : Env) (w : World) : World :=
  env.allNodes.foldl (fun w n => setIntention w n.name St.REVERT) w

/-- `self._process_atom_failure(atom, failure)`: recursive escalation through
the retry hierarchy.  The recursion is given explicit fuel (Python recurses
unboundedly; a well-formed retry nesting is finite). -/
def processAtomFailure (env : Env) : Nat → World → Node → VResult → World
  | 0, w, _, _ => w
  | fuel + 1, w, atom, failure =>
    match env.findAtomRetry atom with
    | some retry =>
      match env.onFailure retry atom failure with
      | .RETRY =>
        let w' := setIntention w retry.name St.RETRY
        (env.subgraph retry).foldl
          (fun w n => setIntention w n.name St.REVERT) w'
      | .REVERT => processAtomFailure env fuel w retry failure
      | .REVERT_ALL => revertAll env w
    | none => revertAll env w

/-- `self._reset_nodes(nodes_iter, intention)`: reset each node to `PENDING`
(tasks also reset progress) and set its intention; an unknown node kind
raises `TypeError` (second component `false`), keeping the mutations made so
far. -/
def resetNodes (w : World) : List Node → St → World × Bool
  | [], _ => (w, true)
  | n :: rest, intention =>
    match n.kind with
    | .taskKind =>
        resetNodes (setIntention (changeStateTask w n St.PENDING) n.name
          intention) rest intention
    | .retryKind =>
        resetNodes (setIntention (changeStateRetry w n St.PENDING) n.name
          intention) rest intention
    | .otherKind => (w, false)

/-- `self._retry_subflow(retry)`: set the controller's own intention to
`EXECUTE`, then reset every atom of its guarded subgraph to
`PENDING`/`EXECUTE`. -/
def retrySubflow (env : Env) (w : World) (retry : Node) : World × Bool :=
  resetNodes (setIntention w retry.name St.EXECUTE) (env.subgraph retry)
    St.EXECUTE

/-- `self.reset_all()`: reset every node of the graph to `PENDING`/`EXECUTE`. -/
def resetAll (env : Env) (w : World) : World × Bool :=
  resetNodes w env.allNodes St.EXECUTE

/-- Why a `_schedule_node` call raised: `TypeError` (unknown node kind, or an
unknown kind inside `_reset_nodes`), `excp.ExecutionFailure` (unknown
intention), or an exception out of the proxy's schedule call. -/
inductive SchedErr
  | typeErr
  | executionFailure
  | proxyErr
deriving DecidableEq, Repr

/-- A proxy schedule call (`schedule_execution` / `schedule_reversion` /
retry `execute` / `revert`): returns a fresh future for the node, or raises
when the environment says so.  Modelled from the spec: the proxies turn a
scheduling decision into a future; their internals are outside this
repository's core.  An `.error` carries the system state reached so far
(Python storage writes made before a raise persist). -/
def proxySchedule (env : Env) (s : Sys) (n : Node) :
    Except (SchedErr × Sys) (Future × Sys) :=
  let (k, s') := tick s
  if env.schedFail k then .error (.proxyErr, s')
  else .ok (⟨n, s'.fctr⟩, { s' with fctr := s'.fctr + 1 })

/-- `self._schedule_task(task)`: dispatch on the stored intention. -/
def scheduleTask (env : Env) (s : Sys) (t : Node) :
    Except (SchedErr × Sys) (Future × Sys) :=
  let intention := s.w.intentions t.name
  if intention = St.EXECUTE then proxySchedule env s t
  else if intention = St.REVERT then proxySchedule env s t
  else .error (.executionFailure, s)

/-- `self._schedule_retry(retry)`: dispatch on the stored intention; the
`RETRY` intention first transitions the controller to `RETRYING`, re-arms
its subflow, then schedules its execution. -/
def scheduleRetry (env : Env) (s : Sys) (rt : Node) :
    Except (SchedErr × Sys) (Future × Sys) :=
  let intention := s.w.intentions rt.name
  if intention = St.EXECUTE then proxySchedule env s rt
  else if intention = St.REVERT then proxySchedule env s rt
  else if intention = St.RETRY then
    let w := changeStateRetry s.w rt St.RETRYING
    let (w', ok) := retrySubflow env w rt
    let s' := { s with w := w' }
    if ok then proxySchedule env s' rt else .error (.typeErr, s')
  else .error (.executionFailure, s)

/-- `self._schedule_node(node)`: dispatch on the node kind; an unknown kind
raises `TypeError`. -/
def scheduleNode (env : Env) (s : Sys) (n : Node) :
    Except (SchedErr × Sys) (Future × Sys) :=
  match n.kind with
  | .taskKind => scheduleTask env s n
  | .retryKind => scheduleRetry env s n
  | .otherKind => .error (.typeErr, s)

/-- `self._schedule(nodes)`: schedule each node in turn; on the first node
that fails to schedule, stop immediately and return the futures created so
far together with one captured failure (the `except Exception:` handler
catches every exception `_schedule_node` raises). -/
def schedule (env : Env) : Sys → List Node → List Future →
    List Future × List VResult × Sys
  | s, [], futs => (futs, [], s)
  | s, n :: rest, futs =>
    match scheduleNode env s n with
    | .ok (f, s') => schedule env s' rest (futs ++ [f])
    | .error (_, s') => (futs, [capturedFailure], s')

/-- The sys reached by a `scheduleNode` call, whether it returned or raised. -/
def schedOutSys : Except (SchedErr × Sys) (Future × Sys) → Sys
  | .ok (_, s) => s
  | .error (_, s) => s

/-- Python `set.update`: union keeping the left operand's elements and adding
the new distinct ones. -/
def setUpdate (s m : List Node) : List Node :=
  s ++ (m.dedup.filter (fun n => !s.contains n))

/-- `_WAITING_TIMEOUT = 60` (seconds). -/
def WAITING_TIMEOUT : Nat := 60

/-- Ghost record of one iteration of the wait/analyze loop, for stating the
re-scheduling condition. -/
structure IterInfo where
  /-- `next_nodes` nonempty at the line-127 condition. -/
  hadNext : Bool
  /-- no failure was appended during this iteration's analyzing step. -/
  batchFailEmpty : Bool
  /-- the whole accumulated `failures` list is empty at the line-127 condition. -/
  cumFailEmpty : Bool
  /-- `is_running()` at the line-127 condition. -/
  runningAtCheck : Bool
  /-- `is_running()` at the line-130 recheck (`none` when not reached). -/
  runningAtRecheck : Option Bool
  /-- whether this iteration yielded `SCHEDULING`. -/
  schedYielded : Bool
deriving DecidableEq, Repr

/-- The state of the wait/analyze loop between iterations: the not-done
future set, the accumulated failures, plus a ghost flag `ok` recording that
every `get_next_nodes` answer so far avoided atoms with an unresolved
future (the analyzer-side obligation assumed by claim C5). -/
structure LoopSt where
  s : Sys
  notDone : List Future
  failures : List VResult
  ok : Bool

/-- Accumulator of the analyzing step (the `for future in done:` loop):
system state, failures appended this pass, the accumulated `next_nodes`
set, and two ghost fields: the atoms passed to `get_next_nodes` and the
in-flight-avoidance check. -/
structure AnOut where
  s : Sys
  newFails : List VResult
  nexts : List Node
  queried : List Node
  okStep : Bool

/-- Process one resolved future (lines 108-126): resolve the triple, persist
a task's completion, escalate an execution failure or record a reversion
failure, then (when resolving raised no exception) query the analyzer for
newly-ready successors. -/
def analyzeOne (env : Env) (efuel : Nat) (nd : List Future) (a : AnOut)
    (fut : Future) : AnOut :=
  match env.resolve fut with
  | .error _ => { a with newFails := a.newFails ++ [capturedFailure] }
  | .ok (node, event, result) =>
    let w1 := if node.kind == NodeKind.taskKind
        then completeTask a.s.w node event result else a.s.w
    let w2 := if result.isFailure && (event == Event.EXECUTED)
        then processAtomFailure env efuel w1 node result else w1
    let fails1 := if result.isFailure && !(event == Event.EXECUTED)
        then a.newFails ++ [result] else a.newFails
    let k := a.s.clock
    let s' : Sys := { w := w2, clock := a.s.clock + 1, fctr := a.s.fctr }
    let queried' := a.queried ++ [node]
    match env.nextNodes k (some node) with
    | .error _ =>
        { s := s', newFails := fails1 ++ [capturedFailure],
          nexts := a.nexts, queried := queried', okStep := a.okStep }
    | .ok more =>
        { s := s', newFails := fails1,
          nexts := setUpdate a.nexts more, queried := queried',
          okStep := a.okStep &&
            more.all (fun n => !((nd.map Future.node).contains n)) }

/-- The whole analyzing step over the `done` list. -/
def analyzeAll (env : Env) (efuel : Nat) (s : Sys) (nd : List Future)
    (done : List Future) : AnOut :=
  done.foldl (analyzeOne env efuel nd)
    { s := s, newFails := [], nexts := [], queried := [], okStep := true }

/-- The waiting step (lines 95-100): yield `WAITING`, then
`wait_for_any(not_done, timeout)`; returns `(done, not_done, sys)`. -/
def afterWait (env : Env) (timeout : Nat) (st : LoopSt) :
    List Future × List Future × Sys :=
  let s := yieldInterfere env st.s
  let chosen := env.waitDone s.clock timeout st.notDone
  (st.notDone.filter (fun f => chosen.contains f),
   st.notDone.filter (fun f => !chosen.contains f),
   { s with clock := s.clock + 1 })

/-- The analyzing step as reached from a loop state: analyze the futures the
wait step resolved, with the remaining not-done set in scope (lines
100-126). -/
def anOf (env : Env) (efuel timeout : Nat) (st : LoopSt) : AnOut :=
  analyzeAll env efuel (yieldInterfere env (afterWait env timeout st).2.2)
    (afterWait env timeout st).2.1 (afterWait env timeout st).1

/-- One iteration of the wait/analyze loop (lines 94-132): wait, analyze,
and re-schedule when the successor set is nonempty, no failure is recorded
and the flow is still running (rechecking the flow right before
scheduling).  Returns the markers yielded, the new loop state and the ghost
iteration record. -/
def iterOnce (env : Env) (efuel timeout : Nat) (st : LoopSt) :
    List St × LoopSt × IterInfo :=
  let rem := (afterWait env timeout st).2.1
  let a := anOf env efuel timeout st
  let failures := st.failures ++ a.newFails
  let runAtCheck := isRunning a.s.w
  if !a.nexts.isEmpty && failures.isEmpty && runAtCheck then
    let s3 := yieldInterfere env a.s
    if isRunning s3.w then
      let sc := schedule env s3 a.nexts []
      ([St.WAITING, St.ANALYZING, St.SCHEDULING],
       { s := sc.2.2, notDone := rem ++ sc.1, failures := sc.2.1,
         ok := st.ok && a.okStep },
       { hadNext := true, batchFailEmpty := a.newFails.isEmpty,
         cumFailEmpty := failures.isEmpty, runningAtCheck := runAtCheck,
         runningAtRecheck := some true, schedYielded := true })
    else
      ([St.WAITING, St.ANALYZING, St.SCHEDULING],
       { s := s3, notDone := rem, failures := failures,
         ok := st.ok && a.okStep },
       { hadNext := true, batchFailEmpty := a.newFails.isEmpty,
         cumFailEmpty := failures.isEmpty, runningAtCheck := runAtCheck,
         runningAtRecheck := some false, schedYielded := true })
  else
    ([St.WAITING, St.ANALYZING],
     { s := a.s, notDone := rem, failures := failures,
       ok := st.ok && a.okStep },
     { hadNext := !a.nexts.isEmpty, batchFailEmpty := a.newFails.isEmpty,
       cumFailEmpty := failures.isEmpty, runningAtCheck := runAtCheck,
       runningAtRecheck := none, schedYielded := false })

/-- How a run of `execute_iter` ends: a terminal marker was yielded, the
single accumulated failure was re-raised, an aggregate of several failures
was raised (`misc.Failure.reraise_if_any`), some other exception propagated
(a `TypeError` during resume or an analyzer error outside the protected
region), or the loop fuel ran out (the model's stand-in for a
non-terminating wait loop). -/
inductive Outcome
  | yielded (t : St)
  | raisedOne (f : VResult)
  | raisedAgg (fs : List VResult)
  | raisedErr
  | fuelOut
deriving DecidableEq, Repr

/-- Modelled from the spec: `misc.Failure.reraise_if_any(failures)` (the
`taskflow.utils.misc` module is not part of this repository slice) —
"re-raising the single failure if exactly one, or an aggregate if more". -/
def reraiseIfAny (fs : List VResult) : Outcome :=
  match fs with
  | [f] => .raisedOne f
  | fs => .raisedAgg fs

/-- Lines 134-141: once nothing remains in flight, raise the accumulated
failures if any; otherwise yield the terminal marker (`SUSPENDED` when the
analyzer still reports ready nodes, else `SUCCESS`/`REVERTED` by
`is_success()`). -/
def finishRun (env : Env) (st : LoopSt) : List St × Outcome × LoopSt :=
  if st.failures.isEmpty then
    let k := st.s.clock
    let st' := { st with s := { st.s with clock := st.s.clock + 1 } }
    match env.nextNodes k none with
    | .error _ => ([], .raisedErr, st')
    | .ok ns =>
      if !ns.isEmpty then ([St.SUSPENDED], .yielded St.SUSPENDED, st')
      else if env.isSuccess then ([St.SUCCESS], .yielded St.SUCCESS, st')
      else ([St.REVERTED], .yielded St.REVERTED, st')
  else ([], reraiseIfAny st.failures, st)

/-- The result of running the loop (or the whole of `execute_iter`): the
markers yielded, the ghost per-iteration records, the outcome, and the
final loop state. -/
structure LoopOut where
  markers : List St
  infos : List IterInfo
  outcome : Outcome
  final : LoopSt

/-- The `while not_done:` loop, with fuel bounding the number of
iterations. -/
def execLoop (env : Env) (efuel timeout : Nat) :
    Nat → LoopSt → LoopOut
  | 0, st => ⟨[], [], .fuelOut, st⟩
  | fuel + 1, st =>
    if st.notDone.isEmpty then
      let fin := finishRun env st
      ⟨fin.1, [], fin.2.1, fin.2.2⟩
    else
      let it := iterOnce env efuel timeout st
      let r := execLoop env efuel timeout fuel it.2.1
      ⟨it.1 ++ r.markers, it.2.2 :: r.infos, r.outcome, r.final⟩

/-- Lines 210-211 of `_prepare_flow_for_resume`: re-arm the subflow of every
retry controller found in `RETRYING` state (state checked at visit time); a
`TypeError` out of `_retry_subflow` aborts and propagates (second component
`false`). -/
def resumeRetries (env : Env) : World → List Node → World × Bool
  | w, [] => (w, true)
  | w, rt :: rest =>
    if w.states rt.name == St.RETRYING then
      let r := retrySubflow env w rt
      if r.2 then resumeRetries env r.1 rest else (r.1, false)
    else resumeRetries env w rest

/-- `self._prepare_flow_for_resume()`: escalate every atom currently in
`FAILURE` state using its saved result, re-arm every `RETRYING` retry
controller, then collect the atoms still in `RUNNING`/`REVERTING` state as
the initial wait set. -/
def prepareFlowForResume (env : Env) (efuel : Nat) (w : World) :
    World × List Node × Bool :=
  let w1 := env.allNodes.foldl (fun w n =>
    if w.states n.name == St.FAILURE
    then processAtomFailure env efuel w n (w.results n.name) else w) w
  let rr := resumeRetries env w1
    (env.allNodes.filter (fun n => n.kind == NodeKind.retryKind))
  let nexts := (env.allNodes.filter (fun n =>
    rr.1.states n.name == St.RUNNING ||
    rr.1.states n.name == St.REVERTING)).dedup
  (rr.1, nexts, rr.2)

/-- Lines 72-86 of `execute_iter`: yield `RESUMING`, prepare the flow for
resume, union in the analyzer's initial ready set, yield `SCHEDULING`, and
schedule the candidates when the flow is running (otherwise start with
nothing in flight).  `.error` carries the markers yielded before a
propagating exception. -/
def initState (env : Env) (efuel : Nat) (w0 : World) :
    Except (List St) LoopSt :=
  let s : Sys := { w := w0, clock := 0, fctr := 0 }
  let s1 := yieldInterfere env s
  let prep := prepareFlowForResume env efuel s1.w
  if prep.2.2 then
    let s2 : Sys := { w := prep.1, clock := s1.clock + 1, fctr := s1.fctr }
    match env.nextNodes s1.clock none with
    | .error _ => .error [St.RESUMING]
    | .ok initial =>
      let nextNodes := setUpdate prep.2.1 initial
      let s3 := yieldInterfere env s2
      if isRunning s3.w then
        let sc := schedule env s3 nextNodes []
        .ok { s := sc.2.2, notDone := sc.1, failures := sc.2.1, ok := true }
      else
        .ok { s := s3, notDone := [], failures := [], ok := true }
  else .error [St.RESUMING]

/-- `self.execute_iter(timeout=None)`: the whole run, as the list of yielded
markers, the ghost iteration records, the outcome and the final state. -/
def executeIter (env : Env) (efuel fuel : Nat) (timeout? : Option Nat)
    (w0 : World) : LoopOut :=
  let timeout := timeout?.getD WAITING_TIMEOUT
  match initState env efuel w0 with
  | .error ms => ⟨ms, [], .raisedErr, ⟨⟨w0, 0, 0⟩, [], [], true⟩⟩
  | .ok st0 =>
    let r := execLoop env efuel timeout fuel st0
    ⟨[St.RESUMING, St.SCHEDULING] ++ r.markers, r.infos, r.outcome, r.final⟩

/-- The scheduling error reported by a `_schedule_node` call, if any. -/
def schedErrOf : Except (SchedErr × Sys) (Future × Sys) → Option SchedErr
  | .error (e, _) => some e
  | .ok _ => none

/-! ### Concrete instances used to exercise the model -/

/-- A fresh storage: every atom `PENDING` with `EXECUTE` intention, flow
`RUNNING`. -/
def wBase : World :=
  { intentions := fun _ => St.EXECUTE, states := fun _ => St.PENDING,
    results := fun _ => VResult.value 0, progress := fun _ => 0,
    flow := St.RUNNING }

/-- A storage whose flow state is not `RUNNING`. -/
def wStopped : World := { wBase with flow := St.SUSPENDED }

def nTaskA : Node := ⟨"a", NodeKind.taskKind⟩
def nTaskB : Node := ⟨"b", NodeKind.taskKind⟩
def nTaskC : Node := ⟨"c", NodeKind.taskKind⟩
def nRetryR : Node := ⟨"r", NodeKind.retryKind⟩
def nBad : Node := ⟨"x", NodeKind.otherKind⟩

/-- Storage in which retry controller `r` has stored intention `RETRY`. -/
def wRetry : World :=
  { wBase with intentions := fun nm =>
      if nm = "r" then St.RETRY else St.EXECUTE }

/-- Storage in which task `a` has an unrecognized stored intention. -/
def wWeird : World :=
  { wBase with intentions := fun nm =>
      if nm = "a" then St.SUSPENDED else St.EXECUTE }

def sysBase : Sys := ⟨wBase, 0, 0⟩
def sysRetry : Sys := ⟨wRetry, 0, 0⟩
def sysWeird : Sys := ⟨wWeird, 0, 0⟩

def futF : Future := ⟨nTaskA, 0⟩

/-- An environment with an empty graph and benign collaborators. -/
def envBase : Env :=
  { allNodes := [], findAtomRetry := fun _ => none,
    subgraph := fun _ => [],
    onFailure := fun _ _ _ => RetryDecision.REVERT_ALL,
    interfere := fun _ f => f,
    waitDone := fun _ _ nd => nd,
    nextNodes := fun _ _ => .ok [],
    schedFail := fun _ => false,
    resolve := fun _ => .error (),
    isSuccess := true }

/-- Two independent tasks, both scheduled initially and both succeeding. -/
def envA : Env :=
  { envBase with
    allNodes := [nTaskA, nTaskB],
    nextNodes := fun k _ => if k == 1 then .ok [nTaskA, nTaskB] else .ok [],
    resolve := fun f => .ok (f.node, Event.EXECUTED, VResult.value 1) }

/-- Task `a` schedules, task `b` fails to schedule (proxy raise at clock 4);
`a` then succeeds and reports successor `c`. -/
def env8 : Env :=
  { envBase with
    allNodes := [nTaskA, nTaskB, nTaskC],
    nextNodes := fun k arg =>
      if k == 1 then .ok [nTaskA, nTaskB]
      else if arg == some nTaskA then .ok [nTaskC] else .ok [],
    schedFail := fun k => k == 4,
    resolve := fun f => .ok (f.node, Event.EXECUTED, VResult.value 1) }

/-- One in-flight future for `a`, which succeeds with successor `b`. -/
def envC8w : Env :=
  { envBase with
    allNodes := [nTaskA, nTaskB],
    nextNodes := fun _ arg =>
      if arg == some nTaskA then .ok [nTaskB] else .ok [],
    resolve := fun f => .ok (f.node, Event.EXECUTED, VResult.value 1) }

/-- Same, but the flow state is suspended at the `SCHEDULING` yield (clock
4), so the recheck right before scheduling fails. -/
def envC8w2 : Env :=
  { envC8w with
    interfere := fun k f => if k == 4 then St.SUSPENDED else f }

/-- A loop state with future `futF` in flight. -/
def stC8 : LoopSt := ⟨sysBase, [futF], [], true⟩

/-- `futF` resolves without raising, to a `Failure`-valued result of an
execution event. -/
def envC9 : Env :=
  { envBase with
    resolve := fun f =>
      if f = futF then .ok (nTaskA, Event.EXECUTED, VResult.failure 5)
      else .error () }

/-- Task `a` is guarded by retry controller `r`; the controller's policy
answers `RETRY` on failure tag 1, `REVERT` on tag 2, `REVERT_ALL`
otherwise. -/
def envC4 : Env :=
  { envBase with
    allNodes := [nTaskA, nRetryR],
    findAtomRetry := fun n => if n = nTaskA then some nRetryR else none,
    subgraph := fun n => if n = nRetryR then [nTaskA] else [],
    onFailure := fun _ _ r =>
      if r = VResult.failure 1 then RetryDecision.RETRY
      else if r = VResult.failure 2 then RetryDecision.REVERT
      else RetryDecision.REVERT_ALL }

/-- Retry controller `r` guarding subgraph `[a]`. -/
def envC6 : Env :=
  { envBase with
    allNodes := [nRetryR, nTaskA],
    subgraph := fun n => if n = nRetryR then [nTaskA] else [] }

/-- The analyzer still reports a ready node after drain. -/
def envSusp : Env := { envBase with nextNodes := fun _ _ => .ok [nTaskA] }

/-- Drained with no ready nodes and no overall success. -/
def envRev : Env := { envBase with isSuccess := false }

/-- Drained loop states: no failures, one failure, two failures. -/
def stEmpty : LoopSt := ⟨sysBase, [], [], true⟩
def stFail1 : LoopSt := ⟨sysBase, [], [VResult.failure 7], true⟩
def stFail2 : LoopSt :=
  ⟨sysBase, [], [VResult.failure 7, VResult.failure 8], true⟩

/-- The initial loop state of the `envA` run. -/
def st0A : LoopSt :=
  match initState envA 1 wBase with
  | .ok st => st
  | .error _ => stEmpty

/-- The initial loop state of a run started while not `RUNNING`. -/
def st0S : LoopSt :=
  match initState envBase 1 wStopped with
  | .ok st => st
  | .error _ => stEmpty

/-! ### Basic frame and characterization lemmas -/

lemma setIntention_states (w : World) (nm : String) (i : St) :
    (setIntention w nm i).states = w.states := rfl

lemma setIntention_results (w : World) (nm : String) (i : St) :
    (setIntention w nm i).results = w.results := rfl

lemma setIntention_progress (w : World) (nm : String) (i : St) :
    (setIntention w nm i).progress = w.progress := rfl

lemma setIntention_flow (w : World) (nm : String) (i : St) :
    (setIntention w nm i).flow = w.flow := rfl

lemma setIntention_intentions (w : World) (nm : String) (i : St) (x : String) :
    (setIntention w nm i).intentions x = if x = nm then i else w.intentions x := by
  simp [setIntention, Function.update_apply]

/-- A fold of `setIntention` writes change nothing but the intentions. -/
lemma foldl_setIntention_frame (l : List Node) (w : World) (i : St) :
    (l.foldl (fun w n => setIntention w n.name i) w).states = w.states ∧
    (l.foldl (fun w n => setIntention w n.name i) w).results = w.results ∧
    (l.foldl (fun w n => setIntention w n.name i) w).progress = w.progress ∧
    (l.foldl (fun w n => setIntention w n.name i) w).flow = w.flow := by
  induction l generalizing w with
  | nil => exact ⟨rfl, rfl, rfl, rfl⟩
  | cons n rest ih =>
    simpa [setIntention] using ih (setIntention w n.name i)

/-- A fold of constant `setIntention` writes: every listed name ends at the
written value and every other name is untouched. -/
lemma foldl_setIntention_intentions (l : List Node) (w : World) (i : St)
    (x : String) :
    (l.foldl (fun w n => setIntention w n.name i) w).intentions x
      = if x ∈ l.map Node.name then i else w.intentions x := by
  induction l generalizing w with
  | nil => simp
  | cons n rest ih =>
    simp only [List.foldl_cons, List.map_cons, List.mem_cons]
    rw [ih]
    by_cases h : x ∈ rest.map Node.name
    · simp [h]
    · by_cases h2 : x = n.name
      · simp [h, h2, setIntention_intentions]
      · simp [h, h2, setIntention_intentions]

lemma revertAll_frame (env : Env) (w : World) :
    (revertAll env w).states = w.states ∧
    (revertAll env w).results = w.results ∧
    (revertAll env w).progress = w.progress ∧
    (revertAll env w).flow = w.flow :=
  foldl_setIntention_frame env.allNodes w St.REVERT

lemma revertAll_intentions (env : Env) (w : World) (x : String) :
    (revertAll env w).intentions x
      = if x ∈ env.allNodes.map Node.name then St.REVERT
        else w.intentions x :=
  foldl_setIntention_intentions env.allNodes w St.REVERT x

/-- Escalation mutates nothing but intentions: per-atom states, saved
results, progress and the flow state are untouched. -/
lemma processAtomFailure_frame (env : Env) :
    ∀ (fuel : Nat) (w : World) (atom : Node) (r : VResult),
    (processAtomFailure env fuel w atom r).states = w.states ∧
    (processAtomFailure env fuel w atom r).results = w.results ∧
    (processAtomFailure env fuel w atom r).progress = w.progress ∧
    (processAtomFailure env fuel w atom r).flow = w.flow := by
  intro fuel
  induction fuel with
  | zero => intro w atom r; exact ⟨rfl, rfl, rfl, rfl⟩
  | succ fuel ih =>
    intro w atom r
    cases h : env.findAtomRetry atom with
    | none =>
      simp only [processAtomFailure, h]
      exact revertAll_frame env w
    | some retry =>
      cases h2 : env.onFailure retry atom r with
      | RETRY =>
        simp only [processAtomFailure, h, h2]
        exact foldl_setIntention_frame (env.subgraph retry)
          (setIntention w retry.name St.RETRY) St.REVERT
      | REVERT =>
        simp only [processAtomFailure, h, h2]
        exact ih w retry r
      | REVERT_ALL =>
        simp only [processAtomFailure, h, h2]
        exact revertAll_frame env w

lemma reset_head_task_states (w : World) (n : Node) (i : St) (x : String) :
    (setIntention (changeStateTask w n St.PENDING) n.name i).states x
      = if x = n.name then St.PENDING else w.states x := by
  simp [setIntention, changeStateTask, Function.update_apply]

lemma reset_head_retry_states (w : World) (n : Node) (i : St) (x : String) :
    (setIntention (changeStateRetry w n St.PENDING) n.name i).states x
      = if x = n.name then St.PENDING else w.states x := by
  simp [setIntention, changeStateRetry, Function.update_apply]

lemma reset_head_task_intentions (w : World) (n : Node) (i : St) (x : String) :
    (setIntention (changeStateTask w n St.PENDING) n.name i).intentions x
      = if x = n.name then i else w.intentions x := by
  simp [setIntention, changeStateTask, Function.update_apply]

lemma reset_head_retry_intentions (w : World) (n : Node) (i : St) (x : String) :
    (setIntention (changeStateRetry w n St.PENDING) n.name i).intentions x
      = if x = n.name then i else w.intentions x := by
  simp [setIntention, changeStateRetry, Function.update_apply]

/-- `_reset_nodes` never touches saved results or the flow state, whatever
the node kinds. -/
lemma resetNodes_frame (l : List Node) :
    ∀ (w : World) (i : St),
    (resetNodes w l i).1.results = w.results ∧
    (resetNodes w l i).1.flow = w.flow := by
  induction l with
  | nil => intro w i; exact ⟨rfl, rfl⟩
  | cons n rest ih =>
    intro w i
    cases hk : n.kind with
    | taskKind =>
      simp only [resetNodes, hk]
      exact ih _ i
    | retryKind =>
      simp only [resetNodes, hk]
      exact ih _ i
    | otherKind => simp [resetNodes, hk]

/-- When every node of the list is a known kind, `_reset_nodes` succeeds and
sets exactly the listed names to `PENDING` state and the given intention. -/
lemma resetNodes_char (l : List Node) :
    ∀ (w : World) (i : St), (∀ n ∈ l, n.kind ≠ NodeKind.otherKind) →
    (resetNodes w l i).2 = true ∧
    (∀ x, (resetNodes w l i).1.states x
        = if x ∈ l.map Node.name then St.PENDING else w.states x) ∧
    (∀ x, (resetNodes w l i).1.intentions x
        = if x ∈ l.map Node.name then i else w.intentions x) := by
  induction l with
  | nil =>
    intro w i _
    refine ⟨rfl, fun x => by simp [resetNodes], fun x => by simp [resetNodes]⟩
  | cons n rest ih =>
    intro w i h
    have hn := h n (List.mem_cons_self n rest)
    have hrest : ∀ m ∈ rest, m.kind ≠ NodeKind.otherKind :=
      fun m hm => h m (List.mem_cons_of_mem _ hm)
    cases hk : n.kind with
    | otherKind => exact absurd hk hn
    | taskKind =>
      simp only [resetNodes, hk]
      obtain ⟨hok, hst, hint⟩ := ih _ i hrest
      refine ⟨hok, fun x => ?_, fun x => ?_⟩
      · rw [hst x]
        by_cases hr : x ∈ rest.map Node.name
        · simp [hr]
        · by_cases he : x = n.name <;>
            simp [hr, he, reset_head_task_states]
      · rw [hint x]
        by_cases hr : x ∈ rest.map Node.name
        · simp [hr]
        · by_cases he : x = n.name <;>
            simp [hr, he, reset_head_task_intentions]
    | retryKind =>
      simp only [resetNodes, hk]
      obtain ⟨hok, hst, hint⟩ := ih _ i hrest
      refine ⟨hok, fun x => ?_, fun x => ?_⟩
      · rw [hst x]
        by_cases hr : x ∈ rest.map Node.name
        · simp [hr]
        · by_cases he : x = n.name <;>
            simp [hr, he, reset_head_retry_states]
      · rw [hint x]
        by_cases hr : x ∈ rest.map Node.name
        · simp [hr]
        · by_cases he : x = n.name <;>
            simp [hr, he, reset_head_retry_intentions]

/-- A successful proxy schedule call returns a future for the requested
node. -/
lemma proxySchedule_ok_node (env : Env) (s : Sys) (n : Node) (f : Future)
    (s' : Sys) (h : proxySchedule env s n = .ok (f, s')) : f.node = n := by
  unfold proxySchedule tick at h
  dsimp only at h
  split at h
  · simp at h
  · simp only [Except.ok.injEq, Prod.mk.injEq] at h
    rw [← h.1]

/-- The proxy schedule call leaves the world untouched. -/
lemma proxySchedule_w (env : Env) (s : Sys) (n : Node) :
    (schedOutSys (proxySchedule env s n)).w = s.w := by
  unfold proxySchedule tick
  dsimp only
  by_cases h : env.schedFail s.clock <;> simp [h, schedOutSys]

lemma scheduleTask_ok_node (env : Env) (s : Sys) (n : Node) (f : Future)
    (s' : Sys) (h : scheduleTask env s n = .ok (f, s')) : f.node = n := by
  unfold scheduleTask at h
  dsimp only at h
  split at h
  · exact proxySchedule_ok_node env s n f s' h
  · split at h
    · exact proxySchedule_ok_node env s n f s' h
    · simp at h

lemma scheduleRetry_ok_node (env : Env) (s : Sys) (n : Node) (f : Future)
    (s' : Sys) (h : scheduleRetry env s n = .ok (f, s')) : f.node = n := by
  unfold scheduleRetry at h
  dsimp only at h
  split at h
  · exact proxySchedule_ok_node env s n f s' h
  · split at h
    · exact proxySchedule_ok_node env s n f s' h
    · split at h
      · split at h
        · exact proxySchedule_ok_node env _ n f s' h
        · simp at h
      · simp at h

lemma scheduleNode_ok_node (env : Env) (s : Sys) (n : Node) (f : Future)
    (s' : Sys) (h : scheduleNode env s n = .ok (f, s')) : f.node = n := by
  unfold scheduleNode at h
  cases hk : n.kind with
  | taskKind => rw [hk] at h; exact scheduleTask_ok_node env s n f s' h
  | retryKind => rw [hk] at h; exact scheduleRetry_ok_node env s n f s' h
  | otherKind => rw [hk] at h; simp at h

/-- Every path through `_schedule_node` leaves the flow state alone. -/
lemma scheduleNode_flow (env : Env) (s : Sys) (n : Node) :
    (schedOutSys (scheduleNode env s n)).w.flow = s.w.flow := by
  unfold scheduleNode
  cases hk : n.kind with
  | taskKind =>
    unfold scheduleTask
    dsimp only
    split
    · rw [proxySchedule_w]
    · split
      · rw [proxySchedule_w]
      · rfl
  | retryKind =>
    unfold scheduleRetry
    dsimp only
    split
    · rw [proxySchedule_w]
    · split
      · rw [proxySchedule_w]
      · split
        · have hres := (resetNodes_frame (env.subgraph n)
            (setIntention (changeStateRetry s.w n St.RETRYING) n.name
              St.EXECUTE) St.EXECUTE).2
          split
          · rw [proxySchedule_w]
            unfold retrySubflow
            simpa [setIntention, changeStateRetry] using hres
          · unfold schedOutSys retrySubflow
            simpa [setIntention, changeStateRetry] using hres
        · rfl
  | otherKind => rfl

/-- `_schedule` leaves the flow state alone. -/
lemma schedule_flow (env : Env) :
    ∀ (l : List Node) (s : Sys) (futs : List Future),
    (schedule env s l futs).2.2.w.flow = s.w.flow := by
  intro l
  induction l with
  | nil => intro s futs; rfl
  | cons n rest ih =>
    intro s futs
    have hn := scheduleNode_flow env s n
    cases h : scheduleNode env s n with
    | ok p =>
      obtain ⟨f, s'⟩ := p
      simp only [schedule, h]
      rw [ih s' (futs ++ [f])]
      simpa [schedOutSys, h] using hn
    | error p =>
      obtain ⟨e, s'⟩ := p
      simp only [schedule, h]
      simpa [schedOutSys, h] using hn

/-- `_schedule` appends to the accumulated futures one fresh future per
node, in list order, stopping at the first scheduling error: the created
futures' nodes form a prefix of the candidate list. -/
lemma schedule_futs (env : Env) :
    ∀ (l : List Node) (s : Sys) (futs : List Future),
    ∃ tl : List Future, (schedule env s l futs).1 = futs ++ tl ∧
      tl.map Future.node = l.take tl.length := by
  intro l
  induction l with
  | nil => intro s futs; exact ⟨[], by simp [schedule], by simp⟩
  | cons n rest ih =>
    intro s futs
    cases h : scheduleNode env s n with
    | ok p =>
      obtain ⟨f, s'⟩ := p
      obtain ⟨tl, htl, hmap⟩ := ih s' (futs ++ [f])
      refine ⟨f :: tl, ?_, ?_⟩
      · simp only [schedule, h]; rw [htl]; simp
      · simp only [List.map_cons, List.length_cons, List.take_succ_cons, hmap,
          scheduleNode_ok_node env s n f s' h]
    | error p =>
      obtain ⟨e, s'⟩ := p
      exact ⟨[], by simp [schedule, h], by simp⟩

/-! ### Analyzing-step lemmas -/

/-- The node a future's resolution reports, when resolving does not raise. -/
def resolvedNode (env : Env) (f : Future) : Option Node :=
  match env.resolve f with
  | .ok (n, _, _) => some n
  | .error _ => none

lemma contains_eq_false_iff (l : List Node) (x : Node) :
    l.contains x = false ↔ x ∉ l := by
  rw [show l.contains x = List.elem x l from rfl]
  constructor
  · intro h hm
    have := List.elem_iff.mpr hm
    rw [h] at this
    cases this
  · intro hm
    cases h : List.elem x l with
    | false => rfl
    | true => exact absurd (List.elem_iff.mp h) hm

lemma setUpdate_subset (s m : List Node) :
    ∀ x ∈ setUpdate s m, x ∈ s ∨ x ∈ m := by
  intro x hx
  rcases List.mem_append.mp hx with hs | hf
  · exact .inl hs
  · exact .inr (List.mem_dedup.mp (List.mem_of_mem_filter hf))

lemma setUpdate_nodup (s m : List Node) (h : s.Nodup) :
    (setUpdate s m).Nodup := by
  refine List.Nodup.append h ((List.nodup_dedup m).filter _) ?_
  intro x hxs hxf
  have := List.of_mem_filter hxf
  rw [Bool.not_eq_true', contains_eq_false_iff] at this
  exact this hxs

lemma analyzeOne_queried (env : Env) (efuel : Nat) (nd : List Future)
    (a : AnOut) (fut : Future) :
    (analyzeOne env efuel nd a fut).queried
      = a.queried ++ (resolvedNode env fut).toList := by
  unfold analyzeOne resolvedNode
  cases h : env.resolve fut with
  | error e => simp
  | ok trip =>
    obtain ⟨node, event, result⟩ := trip
    dsimp only
    cases h2 : env.nextNodes a.s.clock (some node) <;> simp

lemma foldl_analyzeOne_queried (env : Env) (efuel : Nat) (nd : List Future)
    (done : List Future) :
    ∀ a : AnOut, (done.foldl (analyzeOne env efuel nd) a).queried
      = a.queried ++ done.filterMap (resolvedNode env) := by
  induction done with
  | nil => intro a; simp
  | cons f rest ih =>
    intro a
    simp only [List.foldl_cons, List.filterMap_cons]
    rw [ih, analyzeOne_queried]
    cases h : resolvedNode env f <;> simp [h]

/-- The analyzing step queries the analyzer for successors exactly for the
futures whose resolution raised no exception, in order, passing the node
the resolution reported. -/
lemma analyzeAll_queried (env : Env) (efuel : Nat) (s : Sys)
    (nd done : List Future) :
    (analyzeAll env efuel s nd done).queried
      = done.filterMap (resolvedNode env) := by
  unfold analyzeAll
  rw [foldl_analyzeOne_queried]
  simp

/-- The invariant of the analyzing-step accumulator used for claim C5: the
accumulated successor set has no duplicates, and when every analyzer answer
avoided in-flight atoms, no accumulated successor is an in-flight atom. -/
def AnInv (nd : List Future) (a : AnOut) : Prop :=
  a.nexts.Nodup ∧
  (a.okStep = true → ∀ x ∈ a.nexts, x ∉ nd.map Future.node)

lemma analyzeOne_inv (env : Env) (efuel : Nat) (nd : List Future)
    (a : AnOut) (fut : Future) (h : AnInv nd a) :
    AnInv nd (analyzeOne env efuel nd a fut) := by
  unfold analyzeOne
  cases hr : env.resolve fut with
  | error e => exact h
  | ok trip =>
    obtain ⟨node, event, result⟩ := trip
    dsimp only
    cases hn : env.nextNodes a.s.clock (some node) with
    | error e => exact h
    | ok more =>
      refine ⟨setUpdate_nodup _ _ h.1, ?_⟩
      intro hok x hx
      rw [Bool.and_eq_true] at hok
      rcases setUpdate_subset _ _ x hx with hxs | hxm
      · exact h.2 hok.1 x hxs
      · have hall := (List.all_eq_true.mp hok.2) x hxm
        rw [Bool.not_eq_true', contains_eq_false_iff] at hall
        exact hall

lemma foldl_analyzeOne_inv (env : Env) (efuel : Nat) (nd : List Future)
    (done : List Future) :
    ∀ a : AnOut, AnInv nd a →
      AnInv nd (done.foldl (analyzeOne env efuel nd) a) := by
  induction done with
  | nil => intro a h; exact h
  | cons f rest ih =>
    intro a h
    exact ih _ (analyzeOne_inv env efuel nd a f h)

lemma analyzeAll_inv (env : Env) (efuel : Nat) (s : Sys)
    (nd done : List Future) :
    AnInv nd (analyzeAll env efuel s nd done) := by
  unfold analyzeAll
  exact foldl_analyzeOne_inv env efuel nd done _
    ⟨List.nodup_nil, fun _ x hx => absurd hx (List.not_mem_nil x)⟩

/-! ### Loop-iteration lemmas -/

/-- The three terminal markers of `execute_iter`. -/
def isTerminal (m : St) : Bool :=
  m == St.SUSPENDED || m == St.SUCCESS || m == St.REVERTED

/-- The marker block yielded by one loop iteration. -/
def goodBlock (b : List St) : Prop :=
  b = [St.WAITING, St.ANALYZING] ∨
  b = [St.WAITING, St.ANALYZING, St.SCHEDULING]

lemma goodBlock_no_terminal {b : List St} (h : goodBlock b) :
    ∀ m ∈ b, isTerminal m = false := by
  rcases h with h | h <;> subst h <;> decide

/-- Every loop iteration yields `WAITING, ANALYZING` and optionally a
trailing `SCHEDULING`. -/
lemma iterOnce_markers (env : Env) (efuel timeout : Nat) (st : LoopSt) :
    goodBlock (iterOnce env efuel timeout st).1 := by
  simp only [iterOnce]
  split
  · split
    · exact .inr rfl
    · exact .inr rfl
  · exact .inl rfl

/-- Decomposition of one loop iteration: the new not-done set is the waited
remainder plus the freshly scheduled futures; nothing is scheduled when the
iteration did not yield `SCHEDULING`, in particular when the flow was not
`RUNNING` at the check; fresh futures carry a prefix of the successor set
as their nodes; and the ghost `ok` flag accumulates the analyzing step's
in-flight-avoidance check. -/
lemma iterOnce_decomp (env : Env) (efuel timeout : Nat) (st : LoopSt) :
    ∃ fresh : List Future,
      (iterOnce env efuel timeout st).2.1.notDone
        = (afterWait env timeout st).2.1 ++ fresh ∧
      fresh.map Future.node
        = (anOf env efuel timeout st).nexts.take fresh.length ∧
      ((iterOnce env efuel timeout st).2.2.schedYielded = false →
        fresh = []) ∧
      ((iterOnce env efuel timeout st).2.2.runningAtCheck = false →
        fresh = [] ∧
        (iterOnce env efuel timeout st).2.2.schedYielded = false) ∧
      (iterOnce env efuel timeout st).2.1.ok
        = (st.ok && (anOf env efuel timeout st).okStep) := by
  obtain ⟨tl, htl, hmap⟩ := schedule_futs env (anOf env efuel timeout st).nexts
    (yieldInterfere env (anOf env efuel timeout st).s) []
  simp only [iterOnce]
  split
  next h =>
    rw [Bool.and_eq_true, Bool.and_eq_true] at h
    split
    · refine ⟨tl, ?_, ?_, ?_, ?_, rfl⟩
      · dsimp only; rw [htl, List.nil_append]
      · exact hmap
      · dsimp only; intro hfalse; cases hfalse
      · dsimp only
        intro hfalse
        rw [hfalse] at h
        cases h.2
    · refine ⟨[], by simp, by simp, fun _ => rfl, ?_, rfl⟩
      dsimp only
      intro hfalse
      rw [hfalse] at h
      cases h.2
  next h =>
    exact ⟨[], by simp, by simp, fun _ => rfl, fun _ => ⟨rfl, rfl⟩, rfl⟩

/-- The ghost iteration record is faithful: its fields are the code's data,
and `SCHEDULING` is yielded exactly when the successor set is nonempty, the
whole accumulated failure list is empty and the flow is `RUNNING`; the flow
is rechecked right before scheduling, and a failed recheck leaves the
not-done set at the waited remainder. -/
lemma iterOnce_info (env : Env) (efuel timeout : Nat) (st : LoopSt) :
    (iterOnce env efuel timeout st).2.2.schedYielded
      = ((iterOnce env efuel timeout st).2.2.hadNext &&
         (iterOnce env efuel timeout st).2.2.cumFailEmpty &&
         (iterOnce env efuel timeout st).2.2.runningAtCheck) ∧
    (iterOnce env efuel timeout st).2.2.hadNext
      = !(anOf env efuel timeout st).nexts.isEmpty ∧
    (iterOnce env efuel timeout st).2.2.batchFailEmpty
      = (anOf env efuel timeout st).newFails.isEmpty ∧
    (iterOnce env efuel timeout st).2.2.cumFailEmpty
      = (st.failures ++ (anOf env efuel timeout st).newFails).isEmpty ∧
    (iterOnce env efuel timeout st).2.2.runningAtCheck
      = isRunning (anOf env efuel timeout st).s.w ∧
    ((iterOnce env efuel timeout st).2.2.schedYielded = true →
      (iterOnce env efuel timeout st).2.2.runningAtRecheck
        = some (isRunning (yieldInterfere env (anOf env efuel timeout st).s).w)) ∧
    ((iterOnce env efuel timeout st).2.2.runningAtRecheck = some false →
      (iterOnce env efuel timeout st).2.1.notDone
        = (afterWait env timeout st).2.1 ∧
      (iterOnce env efuel timeout st).2.1.failures
        = st.failures ++ (anOf env efuel timeout st).newFails) := by
  simp only [iterOnce]
  split
  next h =>
    have h' := h
    rw [Bool.and_eq_true, Bool.and_eq_true] at h'
    split
    next h2 =>
      dsimp only
      refine ⟨?_, by rw [h'.1.1], rfl, rfl, rfl, ?_, ?_⟩
      · rw [h'.1.2, h'.2]; rfl
      · intro _; rw [h2]
      · intro hsome
        exact absurd hsome (by decide)
    next h2 =>
      dsimp only
      refine ⟨?_, by rw [h'.1.1], rfl, rfl, rfl, ?_, ?_⟩
      · rw [h'.1.2, h'.2]; rfl
      · intro _
        rw [Bool.not_eq_true] at h2
        rw [h2]
      · intro _; exact ⟨rfl, rfl⟩
  next h =>
    dsimp only
    rw [Bool.not_eq_true] at h
    refine ⟨by rw [← h], rfl, rfl, rfl, rfl, ?_, ?_⟩
    · intro hfalse; cases hfalse
    · intro hsome; cases hsome

/-- Claim C5's per-iteration preservation: if the not-done futures have
pairwise distinct atoms and every analyzer readiness answer avoided
in-flight atoms (the ghost `ok` flag), the property still holds after the
iteration. -/
lemma iterOnce_inv (env : Env) (efuel timeout : Nat) (st : LoopSt)
    (hnd : (st.notDone.map Future.node).Nodup)
    (hok : (iterOnce env efuel timeout st).2.1.ok = true) :
    ((iterOnce env efuel timeout st).2.1.notDone.map Future.node).Nodup := by
  obtain ⟨fresh, hdec, hmap, _, _, hokeq⟩ := iterOnce_decomp env efuel timeout st
  have hinv : AnInv (afterWait env timeout st).2.1 (anOf env efuel timeout st) :=
    analyzeAll_inv env efuel _ _ _
  have hremsub : (afterWait env timeout st).2.1.Sublist st.notDone := by
    simp only [afterWait]
    exact List.filter_sublist _
  have hrem : ((afterWait env timeout st).2.1.map Future.node).Nodup :=
    List.Nodup.sublist (hremsub.map Future.node) hnd
  have hokstep : (anOf env efuel timeout st).okStep = true := by
    rw [hokeq, Bool.and_eq_true] at hok
    exact hok.2
  rw [hdec, List.map_append]
  refine List.Nodup.append hrem ?_ ?_
  · rw [hmap]
    exact List.Nodup.sublist (List.take_sublist _ _) hinv.1
  · intro x hxrem hxfresh
    rw [hmap] at hxfresh
    have hxnexts : x ∈ (anOf env efuel timeout st).nexts :=
      List.take_subset _ _ hxfresh
    exact hinv.2 hokstep x hxnexts hxrem

/-! ### Loop-level lemmas -/

lemma reraiseIfAny_ne_yielded (fs : List VResult) (t : St) :
    reraiseIfAny fs ≠ .yielded t := by
  unfold reraiseIfAny
  split
  · intro hc; cases hc
  · intro hc; cases hc

lemma execLoop_succ (env : Env) (efuel timeout fuel : Nat) (st : LoopSt) :
    execLoop env efuel timeout (fuel + 1) st =
      if st.notDone.isEmpty then
        ⟨(finishRun env st).1, [], (finishRun env st).2.1,
         (finishRun env st).2.2⟩
      else
        ⟨(iterOnce env efuel timeout st).1 ++
           (execLoop env efuel timeout fuel
             (iterOnce env efuel timeout st).2.1).markers,
         (iterOnce env efuel timeout st).2.2 ::
           (execLoop env efuel timeout fuel
             (iterOnce env efuel timeout st).2.1).infos,
         (execLoop env efuel timeout fuel
           (iterOnce env efuel timeout st).2.1).outcome,
         (execLoop env efuel timeout fuel
           (iterOnce env efuel timeout st).2.1).final⟩ := rfl

lemma finishRun_notDone (env : Env) (st : LoopSt) :
    (finishRun env st).2.2.notDone = st.notDone := by
  unfold finishRun
  dsimp only
  split
  · cases h : env.nextNodes st.s.clock none with
    | error e => rfl
    | ok ns =>
      dsimp only
      split
      · rfl
      · split <;> rfl
  · rfl

lemma finishRun_ok (env : Env) (st : LoopSt) :
    (finishRun env st).2.2.ok = st.ok := by
  unfold finishRun
  dsimp only
  split
  · cases h : env.nextNodes st.s.clock none with
    | error e => rfl
    | ok ns =>
      dsimp only
      split
      · rfl
      · split <;> rfl
  · rfl

/-- `finishRun` either yields exactly one terminal marker, or yields nothing
and does not end in a terminal marker. -/
lemma finishRun_shape (env : Env) (st : LoopSt) :
    (∃ t, (finishRun env st).1 = [t] ∧ (finishRun env st).2.1 = .yielded t ∧
      isTerminal t = true) ∨
    ((finishRun env st).1 = [] ∧
      ∀ t, (finishRun env st).2.1 ≠ .yielded t) := by
  unfold finishRun
  dsimp only
  split
  · cases h : env.nextNodes st.s.clock none with
    | error e =>
      right
      exact ⟨rfl, fun t hc => by cases hc⟩
    | ok ns =>
      dsimp only
      split
      · exact .inl ⟨St.SUSPENDED, rfl, rfl, rfl⟩
      · split
        · exact .inl ⟨St.SUCCESS, rfl, rfl, rfl⟩
        · exact .inl ⟨St.REVERTED, rfl, rfl, rfl⟩
  · right
    exact ⟨rfl, fun t hc => reraiseIfAny_ne_yielded st.failures t hc⟩

/-- When the loop ends in a yielded terminal marker, its marker list is a
sequence of good iteration blocks followed by exactly that terminal. -/
lemma execLoop_shape (env : Env) (efuel timeout : Nat) :
    ∀ (fuel : Nat) (st : LoopSt) (t : St),
    (execLoop env efuel timeout fuel st).outcome = .yielded t →
    ∃ blocks : List (List St),
      (execLoop env efuel timeout fuel st).markers = blocks.flatten ++ [t] ∧
      (∀ b ∈ blocks, goodBlock b) ∧ isTerminal t = true := by
  intro fuel
  induction fuel with
  | zero =>
    intro st t h
    cases h
  | succ fuel ih =>
    intro st t h
    rw [execLoop_succ] at h ⊢
    by_cases hemp : st.notDone.isEmpty
    · rw [if_pos hemp] at h ⊢
      dsimp only at h ⊢
      rcases finishRun_shape env st with ⟨t', hms, hout, hterm⟩ | ⟨hms, hno⟩
      · rw [hout] at h
        cases h
        exact ⟨[], by simpa using hms, by simp, hterm⟩
      · exact absurd h (hno t)
    · rw [if_neg hemp] at h ⊢
      dsimp only at h ⊢
      obtain ⟨blocks, hms, hgood, hterm⟩ := ih _ t h
      refine ⟨(iterOnce env efuel timeout st).1 :: blocks, ?_, ?_, hterm⟩
      · rw [List.flatten_cons, hms, List.append_assoc]
      · intro b hb
        rcases List.mem_cons.mp hb with rfl | hb
        · exact iterOnce_markers env efuel timeout st
        · exact hgood b hb

/-- When the loop ends by raising the accumulated failures, its marker list
is a sequence of good iteration blocks with no terminal marker. -/
lemma execLoop_raised (env : Env) (efuel timeout : Nat) :
    ∀ (fuel : Nat) (st : LoopSt),
    ((∃ f, (execLoop env efuel timeout fuel st).outcome = .raisedOne f) ∨
     (∃ fs, (execLoop env efuel timeout fuel st).outcome = .raisedAgg fs)) →
    ∃ blocks : List (List St),
      (execLoop env efuel timeout fuel st).markers = blocks.flatten ∧
      ∀ b ∈ blocks, goodBlock b := by
  intro fuel
  induction fuel with
  | zero =>
    intro st h
    rcases h with ⟨f, h⟩ | ⟨fs, h⟩ <;> cases h
  | succ fuel ih =>
    intro st h
    rw [execLoop_succ] at h ⊢
    by_cases hemp : st.notDone.isEmpty
    · rw [if_pos hemp] at h ⊢
      dsimp only at h ⊢
      rcases finishRun_shape env st with ⟨t', hms, hout, hterm⟩ | ⟨hms, hno⟩
      · rw [hout] at h
        rcases h with ⟨f, h⟩ | ⟨fs, h⟩ <;> cases h
      · exact ⟨[], by simpa using hms, by simp⟩
    · rw [if_neg hemp] at h ⊢
      dsimp only at h ⊢
      obtain ⟨blocks, hms, hgood⟩ := ih _ h
      refine ⟨(iterOnce env efuel timeout st).1 :: blocks, ?_, ?_⟩
      · rw [List.flatten_cons, hms]
      · intro b hb
        rcases List.mem_cons.mp hb with rfl | hb
        · exact iterOnce_markers env efuel timeout st
        · exact hgood b hb

/-- Unless the fuel ran out, the loop exits only with an empty not-done
set. -/
lemma execLoop_exit (env : Env) (efuel timeout : Nat) :
    ∀ (fuel : Nat) (st : LoopSt),
    (execLoop env efuel timeout fuel st).outcome ≠ .fuelOut →
    (execLoop env efuel timeout fuel st).final.notDone = [] := by
  intro fuel
  induction fuel with
  | zero => intro st h; exact absurd rfl h
  | succ fuel ih =>
    intro st h
    rw [execLoop_succ] at h ⊢
    by_cases hemp : st.notDone.isEmpty
    · rw [if_pos hemp] at h ⊢
      dsimp only at h ⊢
      rw [finishRun_notDone]
      exact List.isEmpty_iff.mp hemp
    · rw [if_neg hemp] at h ⊢
      dsimp only at h ⊢
      exact ih _ h

/-- The ghost `ok` flag only ever decreases: a true final flag means it was
true at every step, in particular at the start. -/
lemma execLoop_ok_mono (env : Env) (efuel timeout : Nat) :
    ∀ (fuel : Nat) (st : LoopSt),
    (execLoop env efuel timeout fuel st).final.ok = true → st.ok = true := by
  intro fuel
  induction fuel with
  | zero => intro st h; exact h
  | succ fuel ih =>
    intro st h
    rw [execLoop_succ] at h
    by_cases hemp : st.notDone.isEmpty
    · rw [if_pos hemp] at h
      dsimp only at h
      rw [finishRun_ok] at h
      exact h
    · rw [if_neg hemp] at h
      dsimp only at h
      have hit := ih _ h
      obtain ⟨_, _, _, _, _, hokeq⟩ := iterOnce_decomp env efuel timeout st
      rw [hokeq, Bool.and_eq_true] at hit
      exact hit.1

/-- Claim C5 over the whole loop: distinct in-flight atoms are preserved to
the exit state whenever every analyzer readiness answer avoided in-flight
atoms. -/
lemma execLoop_inv (env : Env) (efuel timeout : Nat) :
    ∀ (fuel : Nat) (st : LoopSt),
    (execLoop env efuel timeout fuel st).final.ok = true →
    (st.notDone.map Future.node).Nodup →
    ((execLoop env efuel timeout fuel st).final.notDone.map
      Future.node).Nodup := by
  intro fuel
  induction fuel with
  | zero => intro st _ hnd; exact hnd
  | succ fuel ih =>
    intro st h hnd
    rw [execLoop_succ] at h ⊢
    by_cases hemp : st.notDone.isEmpty
    · rw [if_pos hemp] at h ⊢
      dsimp only at h ⊢
      rw [finishRun_notDone]
      exact hnd
    · rw [if_neg hemp] at h ⊢
      dsimp only at h ⊢
      have hitok : (iterOnce env efuel timeout st).2.1.ok = true :=
        execLoop_ok_mono env efuel timeout fuel _ h
      exact ih _ h (iterOnce_inv env efuel timeout st hnd hitok)

/-! ### Initial-state lemmas -/

lemma prepare_nexts_nodup (env : Env) (efuel : Nat) (w : World) :
    (prepareFlowForResume env efuel w).2.1.Nodup := by
  unfold prepareFlowForResume
  dsimp only
  exact List.nodup_dedup _

lemma schedule_nil_nodup (env : Env) (s : Sys) (l : List Node)
    (hl : l.Nodup) :
    ((schedule env s l []).1.map Future.node).Nodup := by
  obtain ⟨tl, htl, hmap⟩ := schedule_futs env l s []
  rw [htl, List.nil_append, hmap]
  exact List.Nodup.sublist (List.take_sublist _ _) hl

/-- When the flow is not `RUNNING` at the first scheduling step, nothing is
scheduled: the run starts with an empty in-flight set and no failures. -/
lemma initState_not_running (env : Env) (efuel : Nat) (w0 : World)
    (st0 : LoopSt) (h : initState env efuel w0 = .ok st0)
    (hrun : isRunning st0.s.w = false) :
    st0.notDone = [] ∧ st0.failures = [] := by
  unfold initState at h
  dsimp only at h
  split at h
  · split at h
    · cases h
    · split at h
      next hr =>
        cases h
        unfold isRunning at hr hrun
        rw [schedule_flow] at hrun
        rw [hr] at hrun
        cases hrun
      next hr => cases h; exact ⟨rfl, rfl⟩
  · cases h

/-- The run's initial in-flight set has pairwise distinct atoms, and the
ghost `ok` flag starts true. -/
lemma initState_inv (env : Env) (efuel : Nat) (w0 : World) (st0 : LoopSt)
    (h : initState env efuel w0 = .ok st0) :
    (st0.notDone.map Future.node).Nodup ∧ st0.ok = true := by
  unfold initState at h
  dsimp only at h
  split at h
  · split at h
    · cases h
    · split at h
      · cases h
        exact ⟨schedule_nil_nodup env _ _
          (setUpdate_nodup _ _ (prepare_nexts_nodup env efuel _)), rfl⟩
      · cases h
        exact ⟨by simp, rfl⟩
  · cases h

/-! ### Claim theorems -/

/-- C10: Failure escalation writes only intentions.  `_process_atom_failure`
(and the `_revert_all` it may invoke) leaves every atom's stored state,
stored result and progress, and the flow state exactly as they were:
escalation never calls a state-changing or completion proxy operation. -/
theorem escalation_frame :
    (∀ (env : Env) (fuel : Nat) (w : World) (atom : Node) (r : VResult),
      (processAtomFailure env fuel w atom r).states = w.states ∧
      (processAtomFailure env fuel w atom r).results = w.results ∧
      (processAtomFailure env fuel w atom r).progress = w.progress ∧
      (processAtomFailure env fuel w atom r).flow = w.flow) ∧
    (∀ (env : Env) (w : World),
      (revertAll env w).states = w.states ∧
      (revertAll env w).results = w.results ∧
      (revertAll env w).progress = w.progress ∧
      (revertAll env w).flow = w.flow) :=
  ⟨fun env fuel w atom r => processAtomFailure_frame env fuel w atom r,
   fun env w => revertAll_frame env w⟩

/-- C4: Failure escalation case analysis.  No guarding retry controller:
every atom of the whole graph gets intention `REVERT`.  A guarding
controller answering `RETRY`: the controller's own intention becomes
`RETRY` and every atom of its guarded subgraph (which excludes the
controller) becomes `REVERT`.  `REVERT`: recurse with the controller as
the failed atom.  `REVERT_ALL`: every atom of the whole graph gets
`REVERT`. -/
theorem process_atom_failure_cases :
    (∀ (env : Env) (fuel : Nat) (w : World) (atom : Node) (r : VResult),
      env.findAtomRetry atom = none →
      processAtomFailure env (fuel + 1) w atom r = revertAll env w) ∧
    (∀ (env : Env) (fuel : Nat) (w : World) (atom retry : Node)
        (r : VResult),
      env.findAtomRetry atom = some retry →
      env.onFailure retry atom r = RetryDecision.RETRY →
      retry.name ∉ (env.subgraph retry).map Node.name →
      (processAtomFailure env (fuel + 1) w atom r).intentions retry.name
        = St.RETRY ∧
      ∀ n ∈ env.subgraph retry,
        (processAtomFailure env (fuel + 1) w atom r).intentions n.name
          = St.REVERT) ∧
    (∀ (env : Env) (fuel : Nat) (w : World) (atom retry : Node)
        (r : VResult),
      env.findAtomRetry atom = some retry →
      env.onFailure retry atom r = RetryDecision.REVERT →
      processAtomFailure env (fuel + 1) w atom r
        = processAtomFailure env fuel w retry r) ∧
    (∀ (env : Env) (fuel : Nat) (w : World) (atom retry : Node)
        (r : VResult),
      env.findAtomRetry atom = some retry →
      env.onFailure retry atom r = RetryDecision.REVERT_ALL →
      processAtomFailure env (fuel + 1) w atom r = revertAll env w) ∧
    (∀ (env : Env) (w : World) (n : Node), n ∈ env.allNodes →
      (revertAll env w).intentions n.name = St.REVERT) := by
  refine ⟨?_, ?_, ?_, ?_, ?_⟩
  · intro env fuel w atom r h
    simp only [processAtomFailure, h]
  · intro env fuel w atom retry r hfind hact hnotin
    constructor
    · simp only [processAtomFailure, hfind, hact]
      rw [foldl_setIntention_intentions, if_neg hnotin,
        setIntention_intentions, if_pos rfl]
    · intro n hn
      simp only [processAtomFailure, hfind, hact]
      rw [foldl_setIntention_intentions,
        if_pos (List.mem_map_of_mem Node.name hn)]
  · intro env fuel w atom retry r hfind hact
    simp only [processAtomFailure, hfind, hact]
  · intro env fuel w atom retry r hfind hact
    simp only [processAtomFailure, hfind, hact]
  · intro env w n hn
    rw [revertAll_intentions, if_pos (List.mem_map_of_mem Node.name hn)]

/-- Witness for C4: in `envC4`, task `a` is guarded by `r`; failure tag 1
makes the policy answer `RETRY`, tag 2 `REVERT`, anything else
`REVERT_ALL`, and `r` itself is unguarded. -/
theorem process_atom_failure_cases_witness :
    (processAtomFailure envC4 1 wBase nTaskA (VResult.failure 1)).intentions
      "r" = St.RETRY ∧
    (processAtomFailure envC4 1 wBase nTaskA (VResult.failure 1)).intentions
      "a" = St.REVERT ∧
    processAtomFailure envC4 1 wBase nTaskA (VResult.failure 2)
      = processAtomFailure envC4 0 wBase nRetryR (VResult.failure 2) ∧
    processAtomFailure envC4 1 wBase nTaskA (VResult.failure 3)
      = revertAll envC4 wBase ∧
    processAtomFailure envC4 1 wBase nRetryR (VResult.failure 9)
      = revertAll envC4 wBase := by
  obtain ⟨h1, h2, h3, h4, _⟩ := process_atom_failure_cases
  refine ⟨?_, ?_, ?_, ?_, ?_⟩
  · exact (h2 envC4 0 wBase nTaskA nRetryR (VResult.failure 1) (by decide)
      (by decide) (by decide)).1
  · exact (h2 envC4 0 wBase nTaskA nRetryR (VResult.failure 1) (by decide)
      (by decide) (by decide)).2 nTaskA (by decide)
  · exact h3 envC4 0 wBase nTaskA nRetryR (VResult.failure 2) (by decide)
      (by decide)
  · exact h4 envC4 0 wBase nTaskA nRetryR (VResult.failure 3) (by decide)
      (by decide)
  · exact h1 envC4 0 wBase nRetryR (VResult.failure 9) (by decide)

/-- C9 (counterexample): a future that resolves without raising but whose
result is a `Failure` from an execution event still produces a successor
query — the analyzer is asked for successors of `a` even though the result
is `Failure 5`. -/
theorem successor_query_on_failure_result :
    envC9.resolve futF = .ok (nTaskA, Event.EXECUTED, VResult.failure 5) ∧
    (VResult.failure 5).isFailure = true ∧
    (analyzeAll envC9 1 sysBase [] [futF]).queried = [nTaskA] :=
  ⟨rfl, rfl, by decide⟩

/-- C9 (amended): the analyzing step queries the analyzer for successors
exactly for the futures whose resolution (`future.result()`) raised no
exception — including futures whose result value is a `Failure`; only a
future whose resolution itself raises produces no query. -/
theorem successor_query_exactly_resolved (env : Env) (efuel : Nat) (s : Sys)
    (nd done : List Future) :
    (analyzeAll env efuel s nd done).queried
      = done.filterMap (resolvedNode env) :=
  analyzeAll_queried env efuel s nd done

/-- C7 (counterexample): the internal-consistency errors — unknown node
kind (`TypeError`) and unknown stored intention (`ExecutionFailure`) — are
raised inside `_schedule_node` but the batch scheduler's
`except Exception:` catches them and converts them into a captured batch
failure, exactly like an ordinary scheduling failure; they do not
propagate to the caller. -/
theorem internal_errors_captured_counterexample :
    schedErrOf (scheduleNode envBase sysBase nBad) = some SchedErr.typeErr ∧
    schedErrOf (scheduleNode envBase sysWeird nTaskA)
      = some SchedErr.executionFailure ∧
    (schedule envBase sysBase [nBad] []).1 = [] ∧
    (schedule envBase sysBase [nBad] []).2.1 = [capturedFailure] ∧
    (schedule envBase sysWeird [nTaskA] []).2.1 = [capturedFailure] := by
  decide

/-- C7 (amended): an unknown node kind or an unrecognized stored intention
makes `_schedule_node` raise, and `_schedule` captures that raise as a
batch failure, abandoning the rest of the batch — the same treatment an
ordinary scheduling failure gets; nothing propagates out of the scheduling
step. -/
theorem internal_errors_captured :
    (∀ (env : Env) (s : Sys) (n : Node) (rest : List Node)
        (futs : List Future), n.kind = NodeKind.otherKind →
      ∃ s', schedule env s (n :: rest) futs
        = (futs, [capturedFailure], s')) ∧
    (∀ (env : Env) (s : Sys) (n : Node) (rest : List Node)
        (futs : List Future), n.kind = NodeKind.taskKind →
      s.w.intentions n.name ≠ St.EXECUTE →
      s.w.intentions n.name ≠ St.REVERT →
      ∃ s', schedule env s (n :: rest) futs
        = (futs, [capturedFailure], s')) ∧
    (∀ (env : Env) (s : Sys) (n : Node) (rest : List Node)
        (futs : List Future), n.kind = NodeKind.retryKind →
      s.w.intentions n.name ≠ St.EXECUTE →
      s.w.intentions n.name ≠ St.REVERT →
      s.w.intentions n.name ≠ St.RETRY →
      ∃ s', schedule env s (n :: rest) futs
        = (futs, [capturedFailure], s')) := by
  refine ⟨?_, ?_, ?_⟩
  · intro env s n rest futs hk
    refine ⟨s, ?_⟩
    have hnode : scheduleNode env s n = .error (.typeErr, s) := by
      unfold scheduleNode
      simp only [hk]
    simp only [schedule, hnode]
  · intro env s n rest futs hk h1 h2
    refine ⟨s, ?_⟩
    have hnode : scheduleNode env s n = .error (.executionFailure, s) := by
      unfold scheduleNode
      simp only [hk]
      unfold scheduleTask
      dsimp only
      rw [if_neg h1, if_neg h2]
    simp only [schedule, hnode]
  · intro env s n rest futs hk h1 h2 h3
    refine ⟨s, ?_⟩
    have hnode : scheduleNode env s n = .error (.executionFailure, s) := by
      unfold scheduleNode
      simp only [hk]
      unfold scheduleRetry
      dsimp only
      rw [if_neg h1, if_neg h2, if_neg h3]
    simp only [schedule, hnode]

/-- Witness for C7: the unknown-kind node `x` and the task `a` with
unrecognized intention are both captured as a batch failure. -/
theorem internal_errors_captured_witness :
    (∃ s', schedule envBase sysBase [nBad] []
      = ([], [capturedFailure], s')) ∧
    (∃ s', schedule envBase sysWeird [nTaskA] []
      = ([], [capturedFailure], s')) := by
  obtain ⟨h1, h2, _⟩ := internal_errors_captured
  exact ⟨h1 envBase sysBase nBad [] [] rfl,
    h2 envBase sysWeird nTaskA [] [] rfl (by decide) (by decide)⟩

/-- C6 (counterexample): scheduling retry controller `r` whose stored
intention is `RETRY` does reset the controller's own intention — it ends
at `EXECUTE`, not at the untouched `RETRY` the claim asserts
(`_retry_subflow` first sets the controller's intention to `EXECUTE`). -/
theorem schedule_retry_resets_intention_counterexample :
    wRetry.intentions "r" = St.RETRY ∧
    (schedOutSys (scheduleNode envC6 sysRetry nRetryR)).w.intentions "r"
      = St.EXECUTE ∧
    ¬ ((schedOutSys (scheduleNode envC6 sysRetry nRetryR)).w.intentions "r"
      = St.RETRY) := by
  decide

/-- C6 (amended): scheduling a retry controller whose stored intention is
`RETRY` first transitions the controller's state to `RETRYING`, then
re-arms its subflow — setting the controller's own intention to `EXECUTE`
and resetting every atom of its guarded subgraph to `PENDING` state with
`EXECUTE` intention — and then schedules the controller's execution. -/
theorem schedule_retry_retry_case (env : Env) (s : Sys) (rt : Node)
    (hint : s.w.intentions rt.name = St.RETRY)
    (hsub : ∀ n ∈ env.subgraph rt, n.kind ≠ NodeKind.otherKind)
    (hname : rt.name ∉ (env.subgraph rt).map Node.name) :
    (schedOutSys (scheduleRetry env s rt)).w.states rt.name
      = St.RETRYING ∧
    (schedOutSys (scheduleRetry env s rt)).w.intentions rt.name
      = St.EXECUTE ∧
    ∀ n ∈ env.subgraph rt,
      (schedOutSys (scheduleRetry env s rt)).w.states n.name
        = St.PENDING ∧
      (schedOutSys (scheduleRetry env s rt)).w.intentions n.name
        = St.EXECUTE := by
  have hne1 : s.w.intentions rt.name ≠ St.EXECUTE := by
    rw [hint]; decide
  have hne2 : s.w.intentions rt.name ≠ St.REVERT := by
    rw [hint]; decide
  obtain ⟨hok, hst, hintn⟩ := resetNodes_char (env.subgraph rt)
    (setIntention (changeStateRetry s.w rt St.RETRYING) rt.name St.EXECUTE)
    St.EXECUTE hsub
  unfold scheduleRetry
  dsimp only
  rw [if_neg hne1, if_neg hne2, if_pos hint]
  unfold retrySubflow
  rw [if_pos hok]
  rw [proxySchedule_w]
  dsimp only
  refine ⟨?_, ?_, ?_⟩
  · rw [hst rt.name, if_neg hname]
    simp [setIntention, changeStateRetry, Function.update_apply]
  · rw [hintn rt.name, if_neg hname]
    simp [setIntention, Function.update_apply]
  · intro n hn
    constructor
    · rw [hst n.name, if_pos (List.mem_map_of_mem Node.name hn)]
    · rw [hintn n.name, if_pos (List.mem_map_of_mem Node.name hn)]

/-- Witness for C6: in `envC6`, controller `r` guards `[a]`; scheduling it
with stored intention `RETRY` gives state `RETRYING` and intention
`EXECUTE` for `r` and `PENDING`/`EXECUTE` for `a`. -/
theorem schedule_retry_retry_case_witness :
    (schedOutSys (scheduleRetry envC6 sysRetry nRetryR)).w.states "r"
      = St.RETRYING ∧
    (schedOutSys (scheduleRetry envC6 sysRetry nRetryR)).w.intentions "r"
      = St.EXECUTE ∧
    (schedOutSys (scheduleRetry envC6 sysRetry nRetryR)).w.states "a"
      = St.PENDING ∧
    (schedOutSys (scheduleRetry envC6 sysRetry nRetryR)).w.intentions "a"
      = St.EXECUTE := by
  obtain ⟨h1, h2, h3⟩ := schedule_retry_retry_case envC6 sysRetry nRetryR
    (by decide) (by decide) (by decide)
  have h4 := h3 nTaskA (by decide)
  exact ⟨h1, h2, h4.1, h4.2⟩

/-- C2: Progress-marker order.  A run of `execute_iter` that ends in a
yielded terminal marker yields `RESUMING`, then `SCHEDULING`, then a
sequence of iteration blocks each equal to `[WAITING, ANALYZING]` or
`[WAITING, ANALYZING, SCHEDULING]`, and finishes with exactly one terminal
marker from `{SUSPENDED, SUCCESS, REVERTED}`, which appears nowhere
earlier. -/
theorem execute_iter_marker_order (env : Env) (efuel fuel : Nat)
    (timeout? : Option Nat) (w0 : World) (t : St)
    (h : (executeIter env efuel fuel timeout? w0).outcome = .yielded t) :
    ∃ blocks : List (List St),
      (executeIter env efuel fuel timeout? w0).markers
        = St.RESUMING :: St.SCHEDULING :: blocks.flatten ++ [t] ∧
      (∀ b ∈ blocks, goodBlock b) ∧
      isTerminal t = true ∧
      ∀ m ∈ St.RESUMING :: St.SCHEDULING :: blocks.flatten,
        isTerminal m = false := by
  unfold executeIter at h ⊢
  cases h0 : initState env efuel w0 with
  | error ms =>
    simp only [h0] at h
    cases h
  | ok st0 =>
    simp only [h0] at h ⊢
    obtain ⟨blocks, hms, hgood, hterm⟩ :=
      execLoop_shape env efuel _ fuel st0 t h
    refine ⟨blocks, ?_, hgood, hterm, ?_⟩
    · rw [hms]; rfl
    · intro m hm
      rcases List.mem_cons.mp hm with rfl | hm
      · rfl
      rcases List.mem_cons.mp hm with rfl | hm
      · rfl
      obtain ⟨b, hb, hmb⟩ := List.mem_flatten.mp hm
      exact goodBlock_no_terminal (hgood b hb) m hmb

/-- Witness for C2: the two-task `envA` run ends in `SUCCESS` and its trace
matches the pattern. -/
theorem execute_iter_marker_order_witness :
    (executeIter envA 1 5 none wBase).outcome = .yielded St.SUCCESS ∧
    ∃ blocks : List (List St),
      (executeIter envA 1 5 none wBase).markers
        = St.RESUMING :: St.SCHEDULING :: blocks.flatten ++ [St.SUCCESS] ∧
      (∀ b ∈ blocks, goodBlock b) ∧
      isTerminal St.SUCCESS = true ∧
      ∀ m ∈ St.RESUMING :: St.SCHEDULING :: blocks.flatten,
        isTerminal m = false :=
  ⟨by decide,
   execute_iter_marker_order envA 1 5 none wBase St.SUCCESS (by decide)⟩

/-- C3: Termination outcome.  Once nothing remains in flight: exactly one
accumulated failure is re-raised as itself; two or more are raised as an
aggregate of all of them; with no failures the terminal marker is
`SUSPENDED` when the analyzer still reports ready nodes, else `SUCCESS`
when it reports overall success, else `REVERTED`; and a raised error means
no terminal marker was yielded anywhere in the run. -/
theorem termination_outcome :
    (∀ (env : Env) (st : LoopSt) (f : VResult),
      st.notDone = [] → st.failures = [f] →
      (finishRun env st).1 = [] ∧
      (finishRun env st).2.1 = .raisedOne f) ∧
    (∀ (env : Env) (st : LoopSt) (f1 f2 : VResult) (rest : List VResult),
      st.notDone = [] → st.failures = f1 :: f2 :: rest →
      (finishRun env st).1 = [] ∧
      (finishRun env st).2.1 = .raisedAgg (f1 :: f2 :: rest)) ∧
    (∀ (env : Env) (st : LoopSt) (ns : List Node),
      st.notDone = [] → st.failures = [] →
      env.nextNodes st.s.clock none = .ok ns →
      (ns ≠ [] → (finishRun env st).2.1 = .yielded St.SUSPENDED) ∧
      (ns = [] → env.isSuccess = true →
        (finishRun env st).2.1 = .yielded St.SUCCESS) ∧
      (ns = [] → env.isSuccess = false →
        (finishRun env st).2.1 = .yielded St.REVERTED)) ∧
    (∀ (env : Env) (efuel fuel : Nat) (timeout? : Option Nat) (w0 : World),
      ((∃ f, (executeIter env efuel fuel timeout? w0).outcome
          = .raisedOne f) ∨
       (∃ fs, (executeIter env efuel fuel timeout? w0).outcome
          = .raisedAgg fs)) →
      ∀ m ∈ (executeIter env efuel fuel timeout? w0).markers,
        isTerminal m = false) := by
  refine ⟨?_, ?_, ?_, ?_⟩
  · intro env st f _ hf
    unfold finishRun
    dsimp only
    rw [hf]
    exact ⟨rfl, rfl⟩
  · intro env st f1 f2 rest _ hf
    unfold finishRun
    dsimp only
    rw [hf]
    exact ⟨rfl, rfl⟩
  · intro env st ns _ hf hnn
    unfold finishRun
    dsimp only
    rw [hf]
    simp only [hnn]
    refine ⟨?_, ?_, ?_⟩
    · intro hne
      rcases ns with _ | ⟨a, l⟩
      · exact absurd rfl hne
      · rfl
    · intro hns hsucc
      subst hns
      simp [hsucc]
    · intro hns hsucc
      subst hns
      simp [hsucc]
  · intro env efuel fuel timeout? w0 h
    unfold executeIter at h ⊢
    cases h0 : initState env efuel w0 with
    | error ms =>
      simp only [h0] at h
      rcases h with ⟨f, h⟩ | ⟨fs, h⟩ <;> cases h
    | ok st0 =>
      simp only [h0] at h ⊢
      obtain ⟨blocks, hms, hgood⟩ := execLoop_raised env efuel _ fuel st0 h
      intro m hm
      rw [hms] at hm
      rcases List.mem_cons.mp hm with rfl | hm
      · rfl
      rcases List.mem_cons.mp hm with rfl | hm
      · rfl
      obtain ⟨b, hb, hmb⟩ := List.mem_flatten.mp hm
      exact goodBlock_no_terminal (hgood b hb) m hmb

/-- Witness for C3: one failure re-raised, two failures aggregated, the
three terminal markers, and the raised `env8` run yields no terminal
marker. -/
theorem termination_outcome_witness :
    ((finishRun envBase stFail1).1 = [] ∧
     (finishRun envBase stFail1).2.1 = .raisedOne (VResult.failure 7)) ∧
    (finishRun envBase stFail2).2.1
      = .raisedAgg [VResult.failure 7, VResult.failure 8] ∧
    (finishRun envSusp stEmpty).2.1 = .yielded St.SUSPENDED ∧
    (finishRun envBase stEmpty).2.1 = .yielded St.SUCCESS ∧
    (finishRun envRev stEmpty).2.1 = .yielded St.REVERTED ∧
    ∀ m ∈ (executeIter env8 1 5 none wBase).markers,
      isTerminal m = false := by
  obtain ⟨h1, h2, h3, h4⟩ := termination_outcome
  refine ⟨h1 envBase stFail1 (VResult.failure 7) rfl rfl, ?_, ?_, ?_, ?_, ?_⟩
  · exact (h2 envBase stFail2 (VResult.failure 7) (VResult.failure 8) []
      rfl rfl).2
  · exact (h3 envSusp stEmpty [nTaskA] rfl rfl rfl).1 (by decide)
  · exact (h3 envBase stEmpty [] rfl rfl rfl).2.1 rfl rfl
  · exact (h3 envRev stEmpty [] rfl rfl rfl).2.2 rfl rfl
  · exact h4 env8 1 5 none wBase (.inl ⟨capturedFailure, by decide⟩)

/-- C1: Drain / no premature abandonment.  A run that starts while the flow
is not `RUNNING` schedules nothing (empty candidate treatment); a future
leaves the not-done set only by being resolved by the wait step; an
iteration whose flow check is not `RUNNING` schedules nothing and removes
nothing beyond the resolved futures; and the loop exits (other than by
fuel exhaustion) only with an empty not-done set. -/
theorem execute_iter_drains_in_flight :
    (∀ (env : Env) (efuel : Nat) (w0 : World) (st0 : LoopSt),
      initState env efuel w0 = .ok st0 → isRunning st0.s.w = false →
      st0.notDone = [] ∧ st0.failures = []) ∧
    (∀ (env : Env) (timeout : Nat) (st : LoopSt) (f : Future),
      f ∈ st.notDone →
      f ∈ (afterWait env timeout st).1 ∨
      f ∈ (afterWait env timeout st).2.1) ∧
    (∀ (env : Env) (efuel timeout : Nat) (st : LoopSt),
      ∃ fresh : List Future,
        (iterOnce env efuel timeout st).2.1.notDone
          = (afterWait env timeout st).2.1 ++ fresh ∧
        ((iterOnce env efuel timeout st).2.2.runningAtCheck = false →
          fresh = [] ∧
          (iterOnce env efuel timeout st).2.2.schedYielded = false)) ∧
    (∀ (env : Env) (efuel timeout fuel : Nat) (st : LoopSt),
      (execLoop env efuel timeout fuel st).outcome ≠ .fuelOut →
      (execLoop env efuel timeout fuel st).final.notDone = []) := by
  refine ⟨?_, ?_, ?_, ?_⟩
  · exact initState_not_running
  · intro env timeout st f hf
    unfold afterWait
    dsimp only
    by_cases hp : (env.waitDone (yieldInterfere env st.s).clock timeout
        st.notDone).contains f = true
    · exact .inl (List.mem_filter.mpr ⟨hf, hp⟩)
    · refine .inr (List.mem_filter.mpr ⟨hf, ?_⟩)
      rw [Bool.not_eq_true] at hp
      rw [hp]
      rfl
  · intro env efuel timeout st
    obtain ⟨fresh, hdec, _, _, hrun, _⟩ := iterOnce_decomp env efuel timeout st
    exact ⟨fresh, hdec, hrun⟩
  · exact execLoop_exit

/-- Witness for C1: the stopped run starts with nothing in flight; `futF`
is resolved or kept; the interfered iteration removes nothing beyond the
resolved futures; and the `envA` run exits with an empty not-done set. -/
theorem execute_iter_drains_in_flight_witness :
    (st0S.notDone = [] ∧ st0S.failures = []) ∧
    (futF ∈ (afterWait envC8w 60 stC8).1 ∨
      futF ∈ (afterWait envC8w 60 stC8).2.1) ∧
    (∃ fresh : List Future,
      (iterOnce envC8w2 1 60 stC8).2.1.notDone
        = (afterWait envC8w2 60 stC8).2.1 ++ fresh ∧
      ((iterOnce envC8w2 1 60 stC8).2.2.runningAtCheck = false →
        fresh = [] ∧
        (iterOnce envC8w2 1 60 stC8).2.2.schedYielded = false)) ∧
    (execLoop envA 1 60 5 st0A).final.notDone = [] := by
  obtain ⟨h1, h2, h3, h4⟩ := execute_iter_drains_in_flight
  exact ⟨h1 envBase 1 wStopped st0S rfl (by decide),
    h2 envC8w 60 stC8 futF (by decide),
    h3 envC8w2 1 60 stC8,
    h4 envA 1 60 5 st0A (by decide)⟩

/-- C5: At-most-one in-flight future per atom.  The initial in-flight set
has pairwise distinct atoms; an iteration preserves distinctness whenever
the analyzer's readiness answers avoided in-flight atoms (the ghost `ok`
flag); hence the whole loop preserves it. -/
theorem at_most_one_in_flight :
    (∀ (env : Env) (efuel : Nat) (w0 : World) (st0 : LoopSt),
      initState env efuel w0 = .ok st0 →
      (st0.notDone.map Future.node).Nodup ∧ st0.ok = true) ∧
    (∀ (env : Env) (efuel timeout : Nat) (st : LoopSt),
      (st.notDone.map Future.node).Nodup →
      (iterOnce env efuel timeout st).2.1.ok = true →
      ((iterOnce env efuel timeout st).2.1.notDone.map
        Future.node).Nodup) ∧
    (∀ (env : Env) (efuel timeout fuel : Nat) (st : LoopSt),
      (execLoop env efuel timeout fuel st).final.ok = true →
      (st.notDone.map Future.node).Nodup →
      ((execLoop env efuel timeout fuel st).final.notDone.map
        Future.node).Nodup) :=
  ⟨fun env efuel w0 st0 h => initState_inv env efuel w0 st0 h,
   fun env efuel timeout st h1 h2 => iterOnce_inv env efuel timeout st h1 h2,
   fun env efuel timeout fuel st h1 h2 =>
     execLoop_inv env efuel timeout fuel st h1 h2⟩

/-- Witness for C5: the `envA` run's initial in-flight set and its loop
exit state both have pairwise distinct atoms; so does the iteration from
`stC8`. -/
theorem at_most_one_in_flight_witness :
    ((st0A.notDone.map Future.node).Nodup ∧ st0A.ok = true) ∧
    ((iterOnce envC8w 1 60 stC8).2.1.notDone.map Future.node).Nodup ∧
    ((execLoop envA 1 60 5 st0A).final.notDone.map Future.node).Nodup := by
  obtain ⟨h1, h2, h3⟩ := at_most_one_in_flight
  exact ⟨h1 envA 1 wBase st0A rfl,
    h2 envC8w 1 60 stC8 (by decide) (by decide),
    h3 envA 1 60 5 st0A (by decide) (h1 envA 1 wBase st0A rfl).1⟩

/-- C8 (counterexample): in the `env8` run, the single analyzing step
records no new failure, accumulates a nonempty successor set, and sees
flow `RUNNING` — yet no scheduling step is entered, because a failure
recorded earlier in the run (the batch-scheduling failure of task `b`)
makes the accumulated failure list nonempty. -/
theorem rescheduling_condition_counterexample :
    (executeIter env8 1 5 none wBase).infos
      = [⟨true, true, false, true, none, false⟩] ∧
    ¬ (∀ info ∈ (executeIter env8 1 5 none wBase).infos,
        info.schedYielded
          = (info.hadNext && info.batchFailEmpty &&
             info.runningAtCheck)) := by
  exact ⟨by decide, by decide⟩

/-- C8 (amended): after an analyzing step, a new scheduling step is entered
if and only if the accumulated successor set is nonempty AND the whole
failure list accumulated so far in the run (not only this batch) is empty
AND the flow state is `RUNNING`; the flow is re-checked immediately before
actually scheduling, and a failed recheck leaves the in-flight set at the
waited remainder with the failure list unchanged. -/
theorem rescheduling_condition (env : Env) (efuel timeout : Nat)
    (st : LoopSt) :
    (iterOnce env efuel timeout st).2.2.schedYielded
      = ((iterOnce env efuel timeout st).2.2.hadNext &&
         (iterOnce env efuel timeout st).2.2.cumFailEmpty &&
         (iterOnce env efuel timeout st).2.2.runningAtCheck) ∧
    (iterOnce env efuel timeout st).2.2.hadNext
      = !(anOf env efuel timeout st).nexts.isEmpty ∧
    (iterOnce env efuel timeout st).2.2.batchFailEmpty
      = (anOf env efuel timeout st).newFails.isEmpty ∧
    (iterOnce env efuel timeout st).2.2.cumFailEmpty
      = (st.failures ++ (anOf env efuel timeout st).newFails).isEmpty ∧
    (iterOnce env efuel timeout st).2.2.runningAtCheck
      = isRunning (anOf env efuel timeout st).s.w ∧
    ((iterOnce env efuel timeout st).2.2.schedYielded = true →
      (iterOnce env efuel timeout st).2.2.runningAtRecheck
        = some (isRunning
            (yieldInterfere env (anOf env efuel timeout st).s).w)) ∧
    ((iterOnce env efuel timeout st).2.2.runningAtRecheck = some false →
      (iterOnce env efuel timeout st).2.1.notDone
        = (afterWait env timeout st).2.1 ∧
      (iterOnce env efuel timeout st).2.1.failures
        = st.failures ++ (anOf env efuel timeout st).newFails) :=
  iterOnce_info env efuel timeout st

/-- Witness for C8: from `stC8` (one in-flight future, no failures), the
iteration schedules (condition holds), records the passed recheck; with
the interfering environment the recheck fails and nothing is scheduled. -/
theorem rescheduling_condition_witness :
    (iterOnce envC8w 1 60 stC8).2.2.schedYielded
      = ((iterOnce envC8w 1 60 stC8).2.2.hadNext &&
         (iterOnce envC8w 1 60 stC8).2.2.cumFailEmpty &&
         (iterOnce envC8w 1 60 stC8).2.2.runningAtCheck) ∧
    (iterOnce envC8w 1 60 stC8).2.2.runningAtRecheck
      = some (isRunning
          (yieldInterfere envC8w (anOf envC8w 1 60 stC8).s).w) ∧
    (iterOnce envC8w2 1 60 stC8).2.1.notDone
      = (afterWait envC8w2 60 stC8).2.1 := by
  obtain ⟨h1, _, _, _, _, h6, _⟩ := rescheduling_condition envC8w 1 60 stC8
  obtain ⟨_, _, _, _, _, _, h7⟩ := rescheduling_condition envC8w2 1 60 stC8
  exact ⟨h1, h6 (by decide), (h7 (by decide)).1⟩

end TF
